import Mathlib

/-!
Shallow embedding of the reconciliation engine of the multi-tenant
invoice-reconciliation service (source under `app/`): the data model
(`app/db/models.py`), the tenant-scoped repository queries
(`app/repositories/{match,invoice,bank_transaction,base}.py`), the scoring
engine (`app/services/scoring.py`) and the reconciliation orchestrator
(`app/services/reconciliation_service.py`).

Modelling conventions, fixed here once:

* Monetary amounts are `Numeric(18, 2)` columns, i.e. exact multiples of
  one cent; they are embedded as integer cents (`Int`).  The scoring code
  converts these decimals to binary floating point (`float(invoice.amount)`);
  the embedded `scoreMatch` uses the exact rational value of the amounts —
  the semantics the spec's exact-decimal invariant mandates — and the
  binary floating-point rounding of the source is modelled separately and
  exactly (`floatPairOfFrac` below).  The structural claims (which pairs
  are proposed, selected, confirmed, rejected) depend only on `scoreMatch`
  being a deterministic function, which holds in both semantics; the
  numerical claims about amount comparisons and about scoring totals at a
  given amount difference are settled against the binary64 model, over
  which the source's comparison is proven to depart from the exact-decimal
  one.
* Dates are embedded as day numbers (`Int`); `transaction.posted_at.date()`
  is the `postedDate` field, and Python date subtraction `.days` is integer
  subtraction.
* Python optional strings (`str | None` columns) are `Option String`;
  Python truthiness (`if not s`) treats both `None` and `""` as falsy
  (`pyTruthy`).
* The ORM relationship `invoice.vendor.name` is flattened into the field
  `vendorName` of the embedded invoice; the scoring engine reads nothing
  else off the vendor.
* Human-facing strings that no engine logic ever reads back — the
  `detail` of a score component, the `reasoning` text stored on a match
  candidate (`format_reasoning`), and `created_at` timestamps — are omitted
  from the embedding; they are produced by `f`-string formatting of floats
  and are write-only in the source.
* SQLAlchemy rows become lists of records; `set` snapshots become lists
  used only through membership; `uuid4` primary keys of freshly inserted
  candidates become the deterministic string `"m/" ++ invoiceId ++ "/" ++
  transactionId` (no claim reads the id of a freshly proposed row).
* `session.commit` / `refresh` are identity in this single-transaction
  model; a service method that raises before any mutation returns the
  unchanged database, which is exactly what the source's
  raise-before-mutate plus transaction rollback guarantees.
-/

set_option maxRecDepth 40000

namespace FlowRMS

/-- Invoice lifecycle status (`InvoiceStatus` in `app/db/models.py`). -/
inductive InvoiceStatus where
  | «open» | matched | paid | cancelled
  deriving DecidableEq, Repr

/-- Match candidate status (`MatchStatus` in `app/db/models.py`). -/
inductive MatchStatus where
  | proposed | confirmed | rejected
  deriving DecidableEq, Repr

/-- Python truthiness of an optional string: `if not s` is taken for
`None` and for the empty string. -/
def pyTruthy : Option String → Bool
  | none => false
  | some s => s ≠ ""

/-- `Invoice` row (`app/db/models.py`): id, tenant, amount in integer
cents, optional issue date (day number), optional description, the
vendor's name through the `vendor` relationship, lifecycle status. -/
structure Invoice where
  id : String
  tenantId : String
  amountCents : Int
  invoiceDate : Option Int
  description : Option String
  vendorName : Option String
  status : InvoiceStatus
  deriving DecidableEq, Repr

/-- `BankTransaction` row (`app/db/models.py`): id, tenant, amount in
integer cents, the date part of `posted_at`, optional memo
(`description` column). -/
structure BankTransaction where
  id : String
  tenantId : String
  amountCents : Int
  postedDate : Int
  description : Option String
  deriving DecidableEq, Repr

/-- `MatchCandidate` row (`app/db/models.py`): the proposed, confirmed or
rejected edge between an invoice and a bank transaction, with its
4-decimal score.  The write-only `reasoning` text is omitted. -/
structure MatchCandidate where
  id : String
  tenantId : String
  invoiceId : String
  bankTransactionId : String
  score : ℚ
  status : MatchStatus
  deriving DecidableEq, Repr

/-- The tenant-shared database: every row carries its own `tenantId`, and
every repository query below filters on it, as the SQLAlchemy queries do. -/
structure DB where
  invoices : List Invoice
  transactions : List BankTransaction
  matchRows : List MatchCandidate
  deriving DecidableEq, Repr

/-- `InvoiceRepository.list_open_invoices`: tenant-scoped invoices with
status `OPEN`. -/
def listOpenInvoices (t : String) (db : DB) : List Invoice :=
  db.invoices.filter fun i => decide (i.tenantId = t ∧ i.status = InvoiceStatus.«open»)

/-- `BankTransactionRepository.list_for_invoice_matching`: all of the
tenant's transactions (the query has no further filter). -/
def listEligibleTransactions (t : String) (db : DB) : List BankTransaction :=
  db.transactions.filter fun x => decide (x.tenantId = t)

/-- `MatchRepository.confirmed_invoice_ids`: invoice ids of the tenant's
CONFIRMED candidates. -/
def confirmedInvoiceIds (t : String) (db : DB) : List String :=
  (db.matchRows.filter fun c =>
    decide (c.tenantId = t ∧ c.status = MatchStatus.confirmed)).map (·.invoiceId)

/-- `MatchRepository.confirmed_transaction_ids`: transaction ids of the
tenant's CONFIRMED candidates. -/
def confirmedTransactionIds (t : String) (db : DB) : List String :=
  (db.matchRows.filter fun c =>
    decide (c.tenantId = t ∧ c.status = MatchStatus.confirmed)).map (·.bankTransactionId)

/-- `MatchRepository.existing_pairs`: the (invoice id, transaction id)
pairs of every candidate row of the tenant, whatever its status. -/
def existingPairs (t : String) (db : DB) : List (String × String) :=
  (db.matchRows.filter fun c => decide (c.tenantId = t)).map
    fun c => (c.invoiceId, c.bankTransactionId)

/-- `MatchRepository.clear_proposed`: delete (not mark) the tenant's
PROPOSED candidates. -/
def clearProposed (t : String) (db : DB) : DB :=
  { db with matchRows := db.matchRows.filter fun c =>
      decide (¬ (c.tenantId = t ∧ c.status = MatchStatus.proposed)) }

/-- `TenantScopedRepository.get_for_tenant` on matches: the candidate with
the given id belonging to the tenant, if any. -/
def getForTenant (t : String) (matchId : String) (db : DB) : Option MatchCandidate :=
  db.matchRows.find? fun c => decide (c.id = matchId ∧ c.tenantId = t)

/-- `MatchRepository.reject_other_matches`: set every PROPOSED candidate of
the tenant for the given invoice, other than the excluded one, to REJECTED
(they stay in storage). -/
def rejectOtherMatches (t : String) (invoiceId excludeId : String) (db : DB) : DB :=
  { db with matchRows := db.matchRows.map fun c =>
      if c.tenantId = t ∧ c.invoiceId = invoiceId ∧ c.id ≠ excludeId ∧
          c.status = MatchStatus.proposed then
        { c with status := MatchStatus.rejected }
      else c }

/-! ### `difflib.SequenceMatcher` (used by `_description_component`)

`SequenceMatcher(None, a, b).ratio()` with no junk predicate:
`find_longest_match` returns, of all longest matching blocks
`a[i:i+k] == b[j:j+k]`, the one with smallest `i`, then smallest `j`;
`get_matching_blocks` recurses on the parts left and right of that block,
and `ratio` is `2 * M / (len(a) + len(b))` where `M` is the total size of
the matching blocks (and `1.0` when both strings are empty).  The brute
force below is that documented contract.  The `autojunk` heuristic of
CPython (only active when `len(b) >= 200`) drops popular elements from
the seeding dictionary but still extends seed blocks through them; it is
not modelled — every use in this development evaluates the ratio on equal
strings, where both semantics give `1.0`.  Python `str.lower()` is ASCII
case mapping on all texts considered. -/

/-- Length of the longest common prefix of two character lists. -/
def matchLen : List Char → List Char → Nat
  | a :: as, b :: bs => if a = b then matchLen as bs + 1 else 0
  | _, _ => 0

/-- One step of the longest-matching-block search: replace the best block
found so far when the block starting at `p` is strictly longer (scanning
order makes ties keep the earliest `i`, then the earliest `j`). -/
def betterBlock (a b : List Char) (best : Nat × Nat × Nat) (p : Nat × Nat) :
    Nat × Nat × Nat :=
  let k := matchLen (a.drop p.1) (b.drop p.2)
  if best.2.2 < k then (p.1, p.2, k) else best

/-- `SequenceMatcher.find_longest_match` over the whole strings: the longest
matching block `(i, j, k)`, earliest in `a` then earliest in `b`. -/
def findLongestMatch (a b : List Char) : Nat × Nat × Nat :=
  ((List.range a.length).flatMap fun i =>
      (List.range b.length).map fun j => (i, j)).foldl (betterBlock a b) (0, 0, 0)

/-- Total size of the matching blocks (`get_matching_blocks` recursion),
with explicit fuel; `a.length + b.length + 1` fuel always suffices because
each recursive call strictly shrinks the combined length. -/
def matchedTotalAux : Nat → List Char → List Char → Nat
  | 0, _, _ => 0
  | fuel + 1, a, b =>
    match findLongestMatch a b with
    | (i, j, k) =>
      if k = 0 then 0
      else
        matchedTotalAux fuel (a.take i) (b.take j) + k +
          matchedTotalAux fuel (a.drop (i + k)) (b.drop (j + k))

/-- Total size of all matching blocks between `a` and `b`. -/
def matchedTotal (a b : List Char) : Nat :=
  matchedTotalAux (a.length + b.length + 1) a b

/-- `SequenceMatcher.ratio()`: `2 * M / (len(a) + len(b))`, and `1.0` for
two empty strings. -/
def similarityRatio (a b : List Char) : ℚ :=
  if a.length + b.length = 0 then 1
  else (2 * matchedTotal a b : ℚ) / (a.length + b.length : ℚ)

/-- Python `s.lower()` as a character list (ASCII case mapping). -/
def pyLower (s : String) : List Char :=
  s.data.map Char.toLower

/-- Python substring test `needle in hay`. -/
def pySubstring (needle hay : List Char) : Bool :=
  (List.range (hay.length + 1)).any fun i => needle.isPrefixOf (hay.drop i)

/-! ### Scoring engine (`app/services/scoring.py`) -/

/-- `ScoreComponent` without its write-only `detail` string. -/
structure ScoreComponent where
  name : String
  weight : ℚ
  achieved : ℚ
  deriving DecidableEq, Repr

/-- `ScoreComponent.contribution`: `weight * clamp(achieved, 0, 1)`. -/
def ScoreComponent.contribution (c : ScoreComponent) : ℚ :=
  c.weight * max 0 (min c.achieved 1)

/-- `MatchScore`: composite total with its components. -/
structure MatchScore where
  total : ℚ
  components : List ScoreComponent
  deriving DecidableEq, Repr

/-- `MatchScore.confidence_label`: `"high"` from `0.8`, `"medium"` from
`0.55`, else `"low"`. -/
def MatchScore.confidenceLabel (m : MatchScore) : String :=
  if 8/10 ≤ m.total then "high"
  else if 55/100 ≤ m.total then "medium"
  else "low"

/-- `_exact_amount_component`: achieved `1.0` when the amount difference is
at most `0.01` currency units, else `0.0`.  `amountDiff` is in currency
units (dollars). -/
def exactAmountComponent (amountDiff : ℚ) : ScoreComponent :=
  { name := "amount_exact", weight := 1/2,
    achieved := if amountDiff ≤ 1/100 then 1 else 0 }

/-- `_tolerance_component`: linear decay `1.0 - diff` inside the `$1`
tolerance, else `0.0`. -/
def toleranceComponent (amountDiff : ℚ) : ScoreComponent :=
  if amountDiff ≤ 1 then
    { name := "amount_tolerance", weight := 1/5, achieved := max 0 (1 - amountDiff) }
  else
    { name := "amount_tolerance", weight := 1/5, achieved := 0 }

/-- `_date_component`: `0.3` partial credit when the invoice has no date;
else `1.0` within 3 days, `0.5` within 7, `0.0` beyond. -/
def dateComponent (invoiceDate : Option Int) (postedAt : Int) : ScoreComponent :=
  match invoiceDate with
  | none => { name := "date", weight := 1/5, achieved := 3/10 }
  | some d =>
    let days := (postedAt - d).natAbs
    if days ≤ 3 then { name := "date", weight := 1/5, achieved := 1 }
    else if days ≤ 7 then { name := "date", weight := 1/5, achieved := 1/2 }
    else { name := "date", weight := 1/5, achieved := 0 }

/-- `_description_component`: `0.3` when exactly one side has text, `0.0`
when neither does, else the case-insensitive `SequenceMatcher` ratio. -/
def descriptionComponent (invoiceDescription txnDescription : Option String) :
    ScoreComponent :=
  if ¬ pyTruthy invoiceDescription ∨ ¬ pyTruthy txnDescription then
    { name := "description", weight := 1/10,
      achieved :=
        if pyTruthy invoiceDescription ∨ pyTruthy txnDescription then 3/10 else 0 }
  else
    { name := "description", weight := 1/10,
      achieved :=
        similarityRatio (pyLower (invoiceDescription.getD ""))
          (pyLower (txnDescription.getD "")) }

/-- `_vendor_component`: `0.0` with no vendor name, `0.2` with a vendor but
no memo, else `1.0` exactly when the vendor name is a case-insensitive
substring of the memo. -/
def vendorComponent (vendorName txnDescription : Option String) : ScoreComponent :=
  if ¬ pyTruthy vendorName then
    { name := "vendor_boost", weight := 1/20, achieved := 0 }
  else if ¬ pyTruthy txnDescription then
    { name := "vendor_boost", weight := 1/20, achieved := 1/5 }
  else
    { name := "vendor_boost", weight := 1/20,
      achieved :=
        if pySubstring (pyLower (vendorName.getD "")) (pyLower (txnDescription.getD ""))
        then 1 else 0 }

/-- Round half to even to an integer (Python `round`'s tie policy). -/
def roundHalfEven (q : ℚ) : Int :=
  let w := ⌊q⌋
  let r := q - (w : ℚ)
  if r < 1/2 then w
  else if 1/2 < r then w + 1
  else if w % 2 = 0 then w else w + 1

/-- `round(x, 4)` on the exact rational value. -/
def round4 (q : ℚ) : ℚ :=
  (roundHalfEven (q * 10000) : ℚ) / 10000

/-- `score_match`: the five components in fixed order, the total the sum
of the contributions clamped to at most `1.0` and rounded to 4 decimals.
The amount difference is taken as the exact rational `|a - b| / 100` —
the exact-decimal semantics the spec mandates — where the source computes
`abs(float(invoice.amount) - float(txn.amount))` in binary64.  The two
differ at threshold-boundary amounts (e.g. $0.04 vs $0.03, where the
float difference exceeds the float literal `0.01`); that divergence is a
finding of this development, established over the exact binary64 model
below (`pyAmountDiffFloat`), and no theorem stated over this exact-
arithmetic `scoreMatch` is read as a statement about the source's
floating-point totals. -/
def scoreMatch (inv : Invoice) (txn : BankTransaction) : MatchScore :=
  let amountDiff : ℚ := |(inv.amountCents : ℚ) - (txn.amountCents : ℚ)| / 100
  let comps : List ScoreComponent :=
    [exactAmountComponent amountDiff,
     toleranceComponent amountDiff,
     dateComponent inv.invoiceDate txn.postedDate,
     descriptionComponent inv.description txn.description,
     vendorComponent inv.vendorName txn.description]
  { total := round4 (min ((comps.map ScoreComponent.contribution).sum) 1),
    components := comps }

/-! ### Reconciliation orchestrator (`app/services/reconciliation_service.py`) -/

/-- `ReconciliationService.SCORE_THRESHOLD`. -/
def SCORE_THRESHOLD : ℚ := 45/100

/-- `ReconciliationService.CANDIDATES_PER_INVOICE`. -/
def CANDIDATES_PER_INVOICE : Nat := 3

/-- A freshly proposed `MatchCandidate` entity (status PROPOSED, the
scoring total as its stored score); the `uuid4` primary key is modelled by
a string derived from the pair. -/
def candidateFor (t : String) (inv : Invoice) (txn : BankTransaction) (total : ℚ) :
    MatchCandidate :=
  { id := "m/" ++ inv.id ++ "/" ++ txn.id, tenantId := t, invoiceId := inv.id,
    bankTransactionId := txn.id, score := total, status := MatchStatus.proposed }

/-- The inner loop of `_build_proposed_entities` for one invoice: skip
transactions already confirmed or whose pair already has a candidate row,
score the rest and keep scores at or above the threshold, paired with
their totals. -/
def perInvoiceCandidates (t : String) (inv : Invoice) (txns : List BankTransaction)
    (confTxn : List String) (pairs : List (String × String)) :
    List (ℚ × MatchCandidate) :=
  txns.filterMap fun txn =>
    if txn.id ∈ confTxn then none
    else if (inv.id, txn.id) ∈ pairs then none
    else
      let ms := scoreMatch inv txn
      if ms.total < SCORE_THRESHOLD then none
      else some (ms.total, candidateFor t inv txn ms.total)

/-- Stable insertion keeping scores descending: an element moves ahead of
exactly the strictly lower-scored ones, so equal scores keep their
encounter order, as Python's stable `sort(reverse=True)` does. -/
def insertDescending (x : ℚ × MatchCandidate) :
    List (ℚ × MatchCandidate) → List (ℚ × MatchCandidate)
  | [] => [x]
  | y :: ys => if y.1 < x.1 then x :: y :: ys else y :: insertDescending x ys

/-- Stable sort by score descending (Python `list.sort(key=score,
reverse=True)` / `sorted(..., reverse=True)`). -/
def sortScoresDescending (l : List (ℚ × MatchCandidate)) : List (ℚ × MatchCandidate) :=
  l.foldl (fun acc x => insertDescending x acc) []

/-- The shortlist pool of `_build_proposed_entities`: per open invoice not
already confirmed, the top `CANDIDATES_PER_INVOICE` scored candidates,
concatenated in invoice order. -/
def candidatePool (t : String) (invoices : List Invoice)
    (txns : List BankTransaction) (confInv confTxn : List String)
    (pairs : List (String × String)) : List (ℚ × MatchCandidate) :=
  invoices.flatMap fun inv =>
    if inv.id ∈ confInv then []
    else
      (sortScoresDescending (perInvoiceCandidates t inv txns confTxn pairs)).take
        CANDIDATES_PER_INVOICE

/-- The greedy selection walk of `_build_proposed_entities`: skip a
candidate whose transaction is already used or whose invoice has reached
the per-invoice cap, else accept it, claim the transaction and bump the
invoice's counter. -/
def selectCandidates : List (ℚ × MatchCandidate) → List String → (String → Nat) →
    List MatchCandidate
  | [], _, _ => []
  | (_, c) :: rest, used, counts =>
    if c.bankTransactionId ∈ used then selectCandidates rest used counts
    else if CANDIDATES_PER_INVOICE ≤ counts c.invoiceId then
      selectCandidates rest used counts
    else
      c :: selectCandidates rest (c.bankTransactionId :: used)
        (fun i => if i = c.invoiceId then counts i + 1 else counts i)

/-- `_build_proposed_entities`: pool the per-invoice shortlists, sort the
pool by score descending (stable), then greedily select with the used set
seeded by the confirmed transaction ids and all per-invoice counters 0. -/
def buildProposedEntities (t : String) (invoices : List Invoice)
    (txns : List BankTransaction) (confInv confTxn : List String)
    (pairs : List (String × String)) : List MatchCandidate :=
  selectCandidates
    (sortScoresDescending (candidatePool t invoices txns confInv confTxn pairs))
    confTxn (fun _ => 0)

/-- `ReconciliationService.reconcile`: the resulting database state and the
returned proposed candidates.  With no open invoice or no eligible
transaction it clears the tenant's proposed rows and returns nothing;
otherwise it snapshots the confirmed ids and the full pair history, then
deletes stale proposals, builds the new proposed entities and persists
them. -/
def reconcileRun (t : String) (db : DB) : DB × List MatchCandidate :=
  let openInvoices := listOpenInvoices t db
  let candidateTxns := listEligibleTransactions t db
  if openInvoices = [] ∨ candidateTxns = [] then
    (clearProposed t db, [])
  else
    let confInv := confirmedInvoiceIds t db
    let confTxn := confirmedTransactionIds t db
    let pairs := existingPairs t db
    let db1 := clearProposed t db
    let entities := buildProposedEntities t openInvoices candidateTxns confInv confTxn pairs
    ({ db1 with matchRows := db1.matchRows ++ entities }, entities)

/-- Service-layer error taxonomy used by `confirm_match`
(`app/services/exceptions.py`). -/
inductive ServiceError where
  | notFound | conflict
  deriving DecidableEq, Repr

/-- `ReconciliationService.confirm_match`: the outcome (the confirmed
candidate together with the invoice's new status, or the raised error) and
the database state after the call.  The source raises NotFound/Conflict
before any mutation, so those paths return the database unchanged; on
success the candidate is set CONFIRMED, its invoice (by primary key) set
MATCHED, and the tenant's other PROPOSED candidates of the same invoice
set REJECTED. -/
def confirmMatch (t : String) (matchId : String) (db : DB) :
    Except ServiceError (MatchCandidate × Option InvoiceStatus) × DB :=
  match getForTenant t matchId db with
  | none => (Except.error ServiceError.notFound, db)
  | some m =>
    if m.status ≠ MatchStatus.proposed then (Except.error ServiceError.conflict, db)
    else
      let db1 : DB :=
        { db with
          matchRows := db.matchRows.map fun c =>
            if c.id = matchId ∧ c.tenantId = t then
              { c with status := MatchStatus.confirmed }
            else c,
          invoices := db.invoices.map fun i =>
            if i.id = m.invoiceId then { i with status := InvoiceStatus.matched }
            else i }
      let db2 := rejectOtherMatches t m.invoiceId m.id db1
      (Except.ok ({ m with status := MatchStatus.confirmed },
        (db2.invoices.find? fun i => decide (i.id = m.invoiceId)).map (·.status)), db2)

/-- `ReconciliationService.list_matches`: the tenant's candidates,
optionally filtered by status; read-only. -/
def listMatches (t : String) (status : Option MatchStatus) (db : DB) :
    List MatchCandidate :=
  db.matchRows.filter fun c =>
    decide (c.tenantId = t) &&
      match status with
      | none => true
      | some s => decide (c.status = s)

/-- One engine operation, for claims over operation sequences. -/
inductive EngineOp where
  | reconcileOp (t : String)
  | confirmOp (t : String) (matchId : String)
  | listOp (t : String) (status : Option MatchStatus)

/-- The database state after one engine operation (`list_matches` is
read-only). -/
def applyOp (db : DB) : EngineOp → DB
  | EngineOp.reconcileOp t => (reconcileRun t db).1
  | EngineOp.confirmOp t matchId => (confirmMatch t matchId db).2
  | EngineOp.listOp _ _ => db

/-- The database state after a sequence of engine operations. -/
def applyOps (db : DB) (ops : List EngineOp) : DB :=
  ops.foldl applyOp db

/-! ### Binary floating point model for the amount comparison

`score_match` computes `amount_diff = abs(float(invoice.amount) -
float(txn.amount))` and compares it with the literal `0.01`: the exact
decimal amounts are first rounded to IEEE-754 binary64 values, their
difference is rounded again, and the threshold itself is the binary64
value nearest to 1/100.  The functions below model binary64 rounding
exactly for the normal range (round to nearest, ties to even, 53-bit
significand; values of magnitude at least `2^-300`, far below any
representable currency amount or any nonzero difference of rounded
amounts, and far above the subnormal threshold irrelevant here).  A float
is carried as an exact pair (integer mantissa, binary exponent). -/

/-- Number of binary digits of `n`, by fuel-driven halving (so that it
evaluates by kernel reduction). -/
def bitLen : Nat → Nat → Nat
  | 0, _ => 0
  | fuel + 1, n => if n = 0 then 0 else bitLen fuel (n / 2) + 1

/-- `⌊log2 (n / d)⌋` for positive `n / d ≥ 2^-300`. -/
def floorLog2Frac (n d : ℕ) : ℤ :=
  (bitLen 4096 (n * 2 ^ 300 / d) : ℤ) - 1 - 300

/-- Round the positive fraction `n / d` to the nearest binary64 value
(ties to even): the mantissa `m` with `2^52 ≤ m ≤ 2^53` and the exponent
`e`, such that the rounded value is `m * 2^e`. -/
def floatPairOfFrac (num : Int) (den : ℕ) : Int × ℤ :=
  if num = 0 ∨ den = 0 then (0, 0)
  else
    let n := num.natAbs
    let e : ℤ := floorLog2Frac n den - 52
    let N : ℕ := if e ≤ 0 then n * 2 ^ (-e).toNat else n
    let D : ℕ := if e ≤ 0 then den else den * 2 ^ e.toNat
    let m : ℕ := N / D
    let r : ℕ := N % D
    let m' : ℕ :=
      if 2 * r < D then m
      else if D < 2 * r then m + 1
      else if m % 2 = 0 then m else m + 1
    (if num < 0 then -(m' : Int) else (m' : Int), e)

/-- The exact rational value of a (mantissa, exponent) pair. -/
def dyadicToQ (p : Int × ℤ) : ℚ :=
  (p.1 : ℚ) * 2 ^ p.2

/-- Exact difference of two dyadics, at the smaller exponent (binary64
subtraction first forms this exact value, then rounds it). -/
def dyadicSub (p q : Int × ℤ) : Int × ℤ :=
  let e := min p.2 q.2
  (p.1 * 2 ^ (p.2 - e).toNat - q.1 * 2 ^ (q.2 - e).toNat, e)

/-- Round an exact dyadic value to binary64: round its integer mantissa as
a fraction over 1 and shift the exponent. -/
def floatRoundDyadic (p : Int × ℤ) : Int × ℤ :=
  let r := floatPairOfFrac p.1 1
  (r.1, r.2 + p.2)

/-- `<=` on dyadic values, by aligning exponents. -/
def dyadicLe (p q : Int × ℤ) : Bool :=
  let e := min p.2 q.2
  p.1 * 2 ^ (p.2 - e).toNat ≤ q.1 * 2 ^ (q.2 - e).toNat

/-- The value the running code compares against the threshold:
`abs(float(a_cents / 100) - float(b_cents / 100))` with both conversions
and the subtraction rounded to binary64. -/
def pyAmountDiffFloat (aCents bCents : Int) : Int × ℤ :=
  let p := floatRoundDyadic (dyadicSub (floatPairOfFrac aCents 100)
    (floatPairOfFrac bCents 100))
  (|p.1|, p.2)

/-- The `amount_exact` achieved value as the running code computes it:
the binary64 difference compared with the binary64 value of the literal
`0.01`. -/
def pyExactAmountAchieved (aCents bCents : Int) : ℚ :=
  if dyadicLe (pyAmountDiffFloat aCents bCents) (floatPairOfFrac 1 100) then 1 else 0

/-- Modelled from the spec: `amount_exact` achieved `1.0` iff
`|invoice.amount − txn.amount| ≤ 0.01` with the amounts compared as exact
decimals (in integer cents, `|a − b| ≤ 1`). -/
def specExactAmountAchieved (aCents bCents : Int) : ℚ :=
  if (aCents - bCents).natAbs ≤ 1 then 1 else 0

/-! ### Derived observations and concrete scenarios used by the claims -/

/-- The tenant's PROPOSED candidates, observed as (invoice id, transaction
id, score) triples — the proposal set the spec's idempotence property
speaks about. -/
def proposedTriples (t : String) (db : DB) : List (String × String × ℚ) :=
  (db.matchRows.filter fun c =>
    decide (c.tenantId = t ∧ c.status = MatchStatus.proposed)).map
    fun c => (c.invoiceId, c.bankTransactionId, c.score)

/-- Well-formedness the application maintains and the schema's primary and
foreign keys express: invoice ids are unique, and every PROPOSED candidate
row points at an existing invoice of its own tenant that is still OPEN
(reconciliation only proposes for open, unconfirmed invoices, and
confirmation rejects the siblings of the invoice it closes). -/
def GoodDB (db : DB) : Prop :=
  (db.invoices.map (·.id)).Nodup ∧
  ∀ c ∈ db.matchRows, c.status = MatchStatus.proposed →
    ∃ inv ∈ db.invoices, inv.id = c.invoiceId ∧ inv.tenantId = c.tenantId ∧
      inv.status = InvoiceStatus.«open»

/-- Concrete open invoice of tenant `t1`: $100.00, dated day 0, no
description, no vendor. -/
def cexInvoice : Invoice :=
  { id := "I1", tenantId := "t1", amountCents := 10000, invoiceDate := some 0,
    description := none, vendorName := none, status := InvoiceStatus.«open» }

/-- Concrete transaction of tenant `t1`: $100.00 posted day 0, no memo. -/
def cexTxn : BankTransaction :=
  { id := "T1", tenantId := "t1", amountCents := 10000, postedDate := 0,
    description := none }

/-- Concrete tenant-`t1` state: one open invoice, one matching transaction,
no candidate rows. -/
def cexDB : DB :=
  { invoices := [cexInvoice], transactions := [cexTxn], matchRows := [] }

/-- The candidate pairing `I1` with `T1` at score 0.9, as the first
reconciliation run over `cexDB` or `w1DB` proposes it. -/
def cexCand : MatchCandidate := candidateFor "t1" cexInvoice cexTxn (9/10)

/-- A second open invoice of tenant `t1`, identical to `cexInvoice` except
for its id, competing for the same transaction. -/
def w1Invoice2 : Invoice :=
  { id := "I2", tenantId := "t1", amountCents := 10000, invoiceDate := some 0,
    description := none, vendorName := none, status := InvoiceStatus.«open» }

/-- The candidate pairing `I2` with `T1` at score 0.9. -/
def w1CandB : MatchCandidate := candidateFor "t1" w1Invoice2 cexTxn (9/10)

/-- Tenant-`t1` state with two equally scoring open invoices and a single
transaction: the first run gives `T1` to `I1`; the second run, whose pair
history contains (`I1`, `T1`), deletes that proposal and proposes
(`I2`, `T1`) instead. -/
def w1DB : DB :=
  { invoices := [cexInvoice, w1Invoice2], transactions := [cexTxn],
    matchRows := [] }

/-- The state after the first run over `w1DB`. -/
def w1DB1 : DB :=
  { invoices := [cexInvoice, w1Invoice2], transactions := [cexTxn],
    matchRows := [cexCand] }

/-- The state after the second run over `w1DB`. -/
def w1DB2 : DB :=
  { invoices := [cexInvoice, w1Invoice2], transactions := [cexTxn],
    matchRows := [w1CandB] }

/-- A tenant-`t1` state whose only invoice is already MATCHED (so there is
no open invoice) and that still holds one stale PROPOSED row. -/
def w8DB : DB :=
  { invoices := [{ cexInvoice with status := InvoiceStatus.matched }],
    transactions := [cexTxn], matchRows := [cexCand] }

/-- A $0.04 invoice, perfectly aligned with `w7cTxn` in date, text and
vendor, at exactly one cent of amount difference — the input on which the
source's binary float comparison departs from the exact decimal one. -/
def w7cInvoice : Invoice :=
  { id := "I7c", tenantId := "t1", amountCents := 4, invoiceDate := some 0,
    description := some "Consulting Acme", vendorName := some "Acme",
    status := InvoiceStatus.«open» }

/-- The $0.03 transaction paired with `w7cInvoice`: same day, memo equal
to the invoice description up to case and containing the vendor name. -/
def w7cTxn : BankTransaction :=
  { id := "T7c", tenantId := "t1", amountCents := 3, postedDate := 0,
    description := some "consulting acme" }

/-- A PROPOSED candidate of tenant `t1` pairing invoice `I1` with
transaction `T1`. -/
def w3Win : MatchCandidate :=
  { id := "M1", tenantId := "t1", invoiceId := "I1", bankTransactionId := "T1",
    score := 9/10, status := MatchStatus.proposed }

/-- A sibling PROPOSED candidate for the same invoice `I1` against another
transaction. -/
def w3Sib : MatchCandidate :=
  { id := "M2", tenantId := "t1", invoiceId := "I1", bankTransactionId := "T2",
    score := 8/10, status := MatchStatus.proposed }

/-- A tenant-`t1` state holding the open invoice `I1` with two competing
PROPOSED candidates. -/
def w3DB : DB :=
  { invoices := [cexInvoice], transactions := [cexTxn],
    matchRows := [w3Win, w3Sib] }

/-- How one database state's invoices may relate to a later one's under
engine operations: every invoice row of the later state is an invoice row
of the earlier state either unchanged or transitioned from OPEN to
MATCHED. -/
def InvoiceEvolves (dbA dbB : DB) : Prop :=
  ∀ inv' ∈ dbB.invoices, ∃ inv ∈ dbA.invoices, inv.id = inv'.id ∧
    (inv' = inv ∨ (inv.status = InvoiceStatus.«open» ∧
      inv' = { inv with status := InvoiceStatus.matched }))

/-! ### Helper lemmas: sequence matcher -/

lemma matchLen_self (l : List Char) : matchLen l l = l.length := by
  induction l with
  | nil => rfl
  | cons a as ih => simp [matchLen, ih]

lemma matchLen_le_left (a b : List Char) : matchLen a b ≤ a.length := by
  induction a generalizing b with
  | nil => simp [matchLen]
  | cons x xs ih =>
    cases b with
    | nil => simp [matchLen]
    | cons y ys =>
      simp only [matchLen, List.length_cons]
      split
      · exact Nat.succ_le_succ (ih ys)
      · exact Nat.zero_le _

lemma foldl_betterBlock_fixed (a b : List Char) (best : Nat × Nat × Nat)
    (h : ∀ p : Nat × Nat, betterBlock a b best p = best) :
    ∀ ps : List (Nat × Nat), ps.foldl (betterBlock a b) best = best := by
  intro ps
  induction ps with
  | nil => rfl
  | cons p ps ih => simp only [List.foldl_cons, h p, ih]

lemma findLongestMatch_self (s : List Char) (hs : s ≠ []) :
    findLongestMatch s s = (0, 0, s.length) := by
  obtain ⟨x, xs, rfl⟩ : ∃ x ys, s = x :: ys := by
    cases s with
    | nil => exact absurd rfl hs
    | cons x ys => exact ⟨x, ys, rfl⟩
  set s := x :: xs with hsdef
  have hlen : 0 < s.length := by simp [hsdef]
  have hpairs :
      (List.range s.length).flatMap (fun i => (List.range s.length).map fun j => (i, j)) =
        (0, 0) :: (((List.range xs.length).map fun j => ((0 : ℕ), j + 1)) ++
          ((List.range xs.length).map Nat.succ).flatMap
            (fun i => (List.range s.length).map fun j => (i, j))) := by
    rw [hsdef]
    simp only [List.length_cons, List.range_succ_eq_map, List.flatMap_cons,
      List.map_cons, List.map_map]
    rfl
  have hfirst : betterBlock s s (0, 0, 0) (0, 0) = (0, 0, s.length) := by
    simp [betterBlock, matchLen_self, hlen]
  have hfixed : ∀ p : Nat × Nat, betterBlock s s (0, 0, s.length) p = (0, 0, s.length) := by
    intro p
    have hk : matchLen (s.drop p.1) (s.drop p.2) ≤ s.length :=
      le_trans (matchLen_le_left _ _) (by simp)
    simp [betterBlock, Nat.not_lt.mpr hk]
  unfold findLongestMatch
  rw [hpairs]
  simp only [List.foldl_cons, hfirst]
  exact foldl_betterBlock_fixed s s _ hfixed _

lemma findLongestMatch_nil : findLongestMatch [] [] = (0, 0, 0) := rfl

lemma matchedTotalAux_self (fuel : Nat) (s : List Char)
    (hfuel : s.length + 1 ≤ fuel) : matchedTotalAux fuel s s = s.length := by
  cases fuel with
  | zero => omega
  | succ f =>
    by_cases hs : s = []
    · subst hs
      simp [matchedTotalAux, findLongestMatch_nil]
    · have hlen : 0 < s.length := List.length_pos.mpr hs
      have hf : 0 < f := by omega
      obtain ⟨f', rfl⟩ : ∃ f', f = f' + 1 := ⟨f - 1, by omega⟩
      simp only [matchedTotalAux, findLongestMatch_self s hs]
      rw [if_neg (by omega)]
      simp [List.drop_length, matchedTotalAux, findLongestMatch_nil]

lemma similarityRatio_self (s : List Char) : similarityRatio s s = 1 := by
  by_cases hs : s = []
  · subst hs; simp [similarityRatio]
  · have hlen : 0 < s.length := List.length_pos.mpr hs
    have htot : matchedTotal s s = s.length :=
      matchedTotalAux_self _ s (by omega)
    have hne : ((s.length : ℚ) + s.length) ≠ 0 := by
      have : (0 : ℚ) < (s.length : ℚ) := by exact_mod_cast hlen
      positivity
    simp only [similarityRatio, htot]
    rw [if_neg (by omega)]
    field_simp
    ring

/-! ### Helper lemmas: pool and greedy selection membership -/

lemma mem_insertDescending {x y : ℚ × MatchCandidate} {l : List (ℚ × MatchCandidate)} :
    y ∈ insertDescending x l ↔ y = x ∨ y ∈ l := by
  induction l with
  | nil => simp [insertDescending]
  | cons z zs ih =>
    simp only [insertDescending]
    split
    · simp [List.mem_cons]
    · simp only [List.mem_cons, ih]
      tauto

lemma mem_sortScoresDescending {l : List (ℚ × MatchCandidate)}
    {y : ℚ × MatchCandidate} : y ∈ sortScoresDescending l ↔ y ∈ l := by
  suffices h : ∀ (l acc : List (ℚ × MatchCandidate)),
      y ∈ l.foldl (fun a x => insertDescending x a) acc ↔ y ∈ acc ∨ y ∈ l by
    rw [sortScoresDescending, h]
    simp
  intro l
  induction l with
  | nil => simp
  | cons z zs ih =>
    intro acc
    rw [List.foldl_cons, ih, mem_insertDescending]
    simp [List.mem_cons]
    tauto

lemma mem_selectCandidates {pool : List (ℚ × MatchCandidate)} {used : List String}
    {counts : String → Nat} {c : MatchCandidate}
    (h : c ∈ selectCandidates pool used counts) : ∃ q, (q, c) ∈ pool := by
  induction pool generalizing used counts with
  | nil => simp [selectCandidates] at h
  | cons x rest ih =>
    obtain ⟨q', c'⟩ := x
    rw [selectCandidates] at h
    split_ifs at h with h1 h2
    · obtain ⟨q, hq⟩ := ih h
      exact ⟨q, List.mem_cons_of_mem _ hq⟩
    · obtain ⟨q, hq⟩ := ih h
      exact ⟨q, List.mem_cons_of_mem _ hq⟩
    · rcases List.mem_cons.mp h with rfl | h'
      · exact ⟨q', List.mem_cons_self _ _⟩
      · obtain ⟨q, hq⟩ := ih h'
        exact ⟨q, List.mem_cons_of_mem _ hq⟩

lemma mem_perInvoiceCandidates {t : String} {inv : Invoice}
    {txns : List BankTransaction} {confTxn : List String}
    {pairs : List (String × String)} {q : ℚ} {c : MatchCandidate}
    (h : (q, c) ∈ perInvoiceCandidates t inv txns confTxn pairs) :
    ∃ txn ∈ txns, txn.id ∉ confTxn ∧ (inv.id, txn.id) ∉ pairs ∧
      SCORE_THRESHOLD ≤ (scoreMatch inv txn).total ∧
      q = (scoreMatch inv txn).total ∧
      c = candidateFor t inv txn (scoreMatch inv txn).total := by
  simp only [perInvoiceCandidates, List.mem_filterMap] at h
  obtain ⟨txn, htxn, hf⟩ := h
  split_ifs at hf with h1 h2 h3
  injection hf with hpair
  exact ⟨txn, htxn, h1, h2, not_lt.mp h3, (congrArg Prod.fst hpair).symm,
    (congrArg Prod.snd hpair).symm⟩

lemma mem_candidatePool {t : String} {invs : List Invoice}
    {txns : List BankTransaction} {confInv confTxn : List String}
    {pairs : List (String × String)} {q : ℚ} {c : MatchCandidate}
    (h : (q, c) ∈ candidatePool t invs txns confInv confTxn pairs) :
    ∃ inv ∈ invs, inv.id ∉ confInv ∧
      (q, c) ∈ perInvoiceCandidates t inv txns confTxn pairs := by
  simp only [candidatePool, List.mem_flatMap] at h
  obtain ⟨inv, hinv, hmem⟩ := h
  split_ifs at hmem with hc
  · cases hmem
  · exact ⟨inv, hinv, hc, mem_sortScoresDescending.mp (List.take_subset _ _ hmem)⟩

lemma mem_buildProposedEntities {t : String} {invs : List Invoice}
    {txns : List BankTransaction} {confInv confTxn : List String}
    {pairs : List (String × String)} {c : MatchCandidate}
    (h : c ∈ buildProposedEntities t invs txns confInv confTxn pairs) :
    ∃ inv ∈ invs, inv.id ∉ confInv ∧ ∃ txn ∈ txns, txn.id ∉ confTxn ∧
      (inv.id, txn.id) ∉ pairs ∧ SCORE_THRESHOLD ≤ (scoreMatch inv txn).total ∧
      c = candidateFor t inv txn (scoreMatch inv txn).total := by
  obtain ⟨q, hq⟩ := mem_selectCandidates h
  obtain ⟨inv, hinv, hconf, hper⟩ :=
    mem_candidatePool (mem_sortScoresDescending.mp hq)
  obtain ⟨txn, htxn, h1, h2, h3, _, h5⟩ := mem_perInvoiceCandidates hper
  exact ⟨inv, hinv, hconf, txn, htxn, h1, h2, h3, h5⟩

/-! ### Helper lemmas: structure of a reconciliation run -/

lemma reconcileRun_invoices (t : String) (db : DB) :
    (reconcileRun t db).1.invoices = db.invoices := by
  simp only [reconcileRun]
  split
  · rfl
  · rfl

lemma reconcileRun_transactions (t : String) (db : DB) :
    (reconcileRun t db).1.transactions = db.transactions := by
  simp only [reconcileRun]
  split
  · rfl
  · rfl

lemma reconcileRun_matchRows (t : String) (db : DB) :
    (reconcileRun t db).1.matchRows =
      (clearProposed t db).matchRows ++ (reconcileRun t db).2 := by
  simp only [reconcileRun]
  split
  · simp
  · rfl

lemma mem_reconcileRun_snd {t : String} {db : DB} {c : MatchCandidate}
    (h : c ∈ (reconcileRun t db).2) :
    c ∈ buildProposedEntities t (listOpenInvoices t db)
      (listEligibleTransactions t db) (confirmedInvoiceIds t db)
      (confirmedTransactionIds t db) (existingPairs t db) := by
  simp only [reconcileRun] at h
  split at h
  · simp at h
  · exact h

lemma reconcileRun_snd_spec {t : String} {db : DB} {c : MatchCandidate}
    (h : c ∈ (reconcileRun t db).2) :
    c.tenantId = t ∧ c.status = MatchStatus.proposed ∧
      (c.invoiceId, c.bankTransactionId) ∉ existingPairs t db ∧
      ∃ inv ∈ listOpenInvoices t db, c.invoiceId = inv.id := by
  obtain ⟨inv, hinv, _, txn, _, _, hpair, _, hc⟩ :=
    mem_buildProposedEntities (mem_reconcileRun_snd h)
  subst hc
  exact ⟨rfl, rfl, by simpa [candidateFor] using hpair, ⟨inv, hinv, rfl⟩⟩

lemma reconcileRun_snd_sub_matchRows {t : String} {db : DB} {c : MatchCandidate}
    (h : c ∈ (reconcileRun t db).2) : c ∈ (reconcileRun t db).1.matchRows := by
  rw [reconcileRun_matchRows]
  exact List.mem_append_right _ h

lemma mem_existingPairs_of_mem {t : String} {db : DB} {c : MatchCandidate}
    (hc : c ∈ db.matchRows) (ht : c.tenantId = t) :
    (c.invoiceId, c.bankTransactionId) ∈ existingPairs t db := by
  unfold existingPairs
  exact List.mem_map_of_mem _ (List.mem_filter.mpr ⟨hc, by simp [ht]⟩)

lemma proposed_after_run {t : String} {db : DB} {c : MatchCandidate}
    (hc : c ∈ (reconcileRun t db).1.matchRows)
    (ht : c.tenantId = t) (hs : c.status = MatchStatus.proposed) :
    c ∈ (reconcileRun t db).2 := by
  rw [reconcileRun_matchRows] at hc
  rcases List.mem_append.mp hc with h | h
  · exfalso
    have hfail := (List.mem_filter.mp h).2
    simp [ht, hs] at hfail
  · exact h

/-! ### Helper lemmas: greedy selection respects transaction and invoice caps -/

lemma selectCandidates_countP_txn_zero {pool : List (ℚ × MatchCandidate)}
    {used : List String} {counts : String → Nat} {txnId : String}
    (h : txnId ∈ used) :
    (selectCandidates pool used counts).countP
      (fun c => decide (c.bankTransactionId = txnId)) = 0 := by
  induction pool generalizing used counts with
  | nil => rfl
  | cons x rest ih =>
    obtain ⟨q, c⟩ := x
    rw [selectCandidates]
    split_ifs with h1 h2
    · exact ih h
    · exact ih h
    · have hne : ¬ c.bankTransactionId = txnId := fun he => h1 (he ▸ h)
      have hrec := @ih (c.bankTransactionId :: used)
        (fun i => if i = c.invoiceId then counts i + 1 else counts i)
        (List.mem_cons_of_mem _ h)
      simp [List.countP_cons, hne, hrec]

lemma selectCandidates_countP_txn (pool : List (ℚ × MatchCandidate))
    (used : List String) (counts : String → Nat) (txnId : String) :
    (selectCandidates pool used counts).countP
      (fun c => decide (c.bankTransactionId = txnId)) ≤ 1 := by
  induction pool generalizing used counts with
  | nil => simp [selectCandidates]
  | cons x rest ih =>
    obtain ⟨q, c⟩ := x
    rw [selectCandidates]
    split_ifs with h1 h2
    · exact ih _ _
    · exact ih _ _
    · by_cases he : c.bankTransactionId = txnId
      · have h0 := @selectCandidates_countP_txn_zero rest (txnId :: used)
          (fun i => if i = c.invoiceId then counts i + 1 else counts i) txnId
          (List.mem_cons_self txnId used)
        simp [List.countP_cons, he, h0]
      · have hrec := ih (c.bankTransactionId :: used)
          (fun i => if i = c.invoiceId then counts i + 1 else counts i)
        simpa [List.countP_cons, he] using hrec

lemma selectCandidates_countP_inv (pool : List (ℚ × MatchCandidate))
    (used : List String) (counts : String → Nat) (invId : String) :
    (selectCandidates pool used counts).countP
      (fun c => decide (c.invoiceId = invId)) ≤
      CANDIDATES_PER_INVOICE - counts invId := by
  induction pool generalizing used counts with
  | nil => simp [selectCandidates]
  | cons x rest ih =>
    obtain ⟨q, c⟩ := x
    rw [selectCandidates]
    split_ifs with h1 h2
    · exact ih _ _
    · exact ih _ _
    · rw [Nat.not_le] at h2
      have hrec := ih (c.bankTransactionId :: used)
        (fun i => if i = c.invoiceId then counts i + 1 else counts i)
      by_cases he : c.invoiceId = invId
      · have hrec' : (selectCandidates rest (c.bankTransactionId :: used)
            (fun i => if i = c.invoiceId then counts i + 1 else counts i)).countP
              (fun x => decide (x.invoiceId = invId)) ≤
            CANDIDATES_PER_INVOICE - (counts invId + 1) := by
          simpa [he] using hrec
        have hlt : counts invId < CANDIDATES_PER_INVOICE := he ▸ h2
        have hc : (decide (c.invoiceId = invId)) = true := decide_eq_true he
        rw [List.countP_cons, hc]
        simp only [if_true]
        omega
      · have hcounts : (if invId = c.invoiceId then counts invId + 1 else counts invId)
            = counts invId := if_neg fun h => he h.symm
        simp only [hcounts] at hrec
        simpa [List.countP_cons, he] using hrec

lemma proposedTriples_after_run (t : String) (db : DB) :
    proposedTriples t (reconcileRun t db).1 =
      (reconcileRun t db).2.map fun c =>
        (c.invoiceId, c.bankTransactionId, c.score) := by
  unfold proposedTriples
  rw [reconcileRun_matchRows, List.filter_append]
  have h1 : ((clearProposed t db).matchRows.filter fun c =>
      decide (c.tenantId = t ∧ c.status = MatchStatus.proposed)) = [] := by
    rw [List.filter_eq_nil_iff]
    intro a ha
    have h2 := (List.mem_filter.mp ha).2
    simp only [decide_eq_true_eq] at h2 ⊢
    exact h2
  have h2 : ((reconcileRun t db).2.filter fun c =>
      decide (c.tenantId = t ∧ c.status = MatchStatus.proposed)) =
      (reconcileRun t db).2 := by
    rw [List.filter_eq_self]
    intro c hc
    have hspec := reconcileRun_snd_spec hc
    simp [hspec.1, hspec.2.1]
  rw [h1, h2, List.nil_append]

lemma reconcileRun_snd_countP_txn (t : String) (db : DB) (txnId : String) :
    ((reconcileRun t db).2.countP fun c =>
      decide (c.bankTransactionId = txnId)) ≤ 1 := by
  simp only [reconcileRun]
  split
  · simp
  · exact selectCandidates_countP_txn _ _ _ _

lemma reconcileRun_snd_countP_inv (t : String) (db : DB) (invId : String) :
    ((reconcileRun t db).2.countP fun c =>
      decide (c.invoiceId = invId)) ≤ 3 := by
  simp only [reconcileRun]
  split
  · simp
  · have h := selectCandidates_countP_inv
      (sortScoresDescending (candidatePool t (listOpenInvoices t db)
        (listEligibleTransactions t db) (confirmedInvoiceIds t db)
        (confirmedTransactionIds t db) (existingPairs t db)))
      (confirmedTransactionIds t db) (fun _ => 0) invId
    simpa [CANDIDATES_PER_INVOICE, buildProposedEntities] using h

/-! ### The claims -/

/-- C9: in every `reconcile()` run, a pair (invoice id, transaction id) that
has any candidate row — PROPOSED, CONFIRMED or REJECTED — at the start of
the run is never among the pairs that run proposes, because the pair
history is snapshotted before stale PROPOSED rows are deleted; consequently
the pair sets proposed by two consecutive runs over an unchanged database
are disjoint. -/
theorem reconcile_never_reproposes_history (t : String) (db : DB) :
    (∀ c ∈ (reconcileRun t db).2,
      (c.invoiceId, c.bankTransactionId) ∉ existingPairs t db) ∧
    (∀ c2 ∈ (reconcileRun t (reconcileRun t db).1).2,
      ∀ c1 ∈ (reconcileRun t db).2,
        (c2.invoiceId, c2.bankTransactionId) ≠
          (c1.invoiceId, c1.bankTransactionId)) := by
  constructor
  · intro c hc
    exact (reconcileRun_snd_spec hc).2.2.1
  · intro c2 h2 c1 h1 heq
    have havoid := (reconcileRun_snd_spec h2).2.2.1
    have h1mem := reconcileRun_snd_sub_matchRows h1
    have h1t := (reconcileRun_snd_spec h1).1
    exact havoid (heq ▸ mem_existingPairs_of_mem h1mem h1t)

/-- C1, amended: running `reconcile()` twice in a row with no intervening
confirmations over unchanged invoices and transactions does not reproduce
the first proposal set; instead the second run ends with a PROPOSED set
whose (invoice id, transaction id) pairs are disjoint from the first
run's, because the pair-history snapshot (taken before stale proposals are
deleted) blocks every pair the first run proposed. -/
theorem reconcile_rerun_proposes_disjoint_pairs (t : String) (db : DB) :
    ∀ p2 ∈ proposedTriples t (reconcileRun t (reconcileRun t db).1).1,
      ∀ p1 ∈ proposedTriples t (reconcileRun t db).1,
        (p2.1, p2.2.1) ≠ (p1.1, p1.2.1) := by
  rw [proposedTriples_after_run, proposedTriples_after_run]
  intro p2 hp2 p1 hp1
  obtain ⟨c2, hc2, rfl⟩ := List.mem_map.mp hp2
  obtain ⟨c1, hc1, rfl⟩ := List.mem_map.mp hp1
  intro heq
  have havoid := (reconcileRun_snd_spec hc2).2.2.1
  have h1mem := reconcileRun_snd_sub_matchRows hc1
  have h1t := (reconcileRun_snd_spec hc1).1
  exact havoid (heq ▸ mem_existingPairs_of_mem h1mem h1t)

lemma cex_score : (scoreMatch cexInvoice cexTxn).total = 9/10 := by
  norm_num [scoreMatch, exactAmountComponent, toleranceComponent, dateComponent,
    descriptionComponent, vendorComponent, pyTruthy, ScoreComponent.contribution,
    round4, roundHalfEven, cexInvoice, cexTxn]

lemma w1_score2 : (scoreMatch w1Invoice2 cexTxn).total = 9/10 := by
  norm_num [scoreMatch, exactAmountComponent, toleranceComponent, dateComponent,
    descriptionComponent, vendorComponent, pyTruthy, ScoreComponent.contribution,
    round4, roundHalfEven, w1Invoice2, cexTxn]

lemma w1_pcA : perInvoiceCandidates "t1" cexInvoice [cexTxn] [] [] =
    [(9/10, cexCand)] := by
  simp only [perInvoiceCandidates, List.filterMap_cons, List.filterMap_nil,
    List.not_mem_nil, if_false, cex_score, SCORE_THRESHOLD, cexCand]
  norm_num

lemma w1_pcB : perInvoiceCandidates "t1" w1Invoice2 [cexTxn] [] [] =
    [(9/10, w1CandB)] := by
  simp only [perInvoiceCandidates, List.filterMap_cons, List.filterMap_nil,
    List.not_mem_nil, if_false, w1_score2, SCORE_THRESHOLD, w1CandB]
  norm_num

lemma w1_run1 : reconcileRun "t1" w1DB = (w1DB1, [cexCand]) := by
  have hpool : candidatePool "t1" [cexInvoice, w1Invoice2] [cexTxn] [] [] [] =
      [(9/10, cexCand), (9/10, w1CandB)] := by
    simp [candidatePool, w1_pcA, w1_pcB, sortScoresDescending, insertDescending,
      CANDIDATES_PER_INVOICE]
  have hsort : sortScoresDescending [(9/10, cexCand), (9/10, w1CandB)] =
      [(9/10, cexCand), (9/10, w1CandB)] := by
    norm_num [sortScoresDescending, insertDescending]
  have hsel : selectCandidates [(9/10, cexCand), (9/10, w1CandB)] []
      (fun _ => 0) = [cexCand] := by
    norm_num [selectCandidates, CANDIDATES_PER_INVOICE, cexCand, w1CandB,
      candidateFor]
  have hbuild : buildProposedEntities "t1" [cexInvoice, w1Invoice2] [cexTxn]
      [] [] [] = [cexCand] := by
    rw [buildProposedEntities, hpool, hsort, hsel]
  have ho : listOpenInvoices "t1" w1DB = [cexInvoice, w1Invoice2] := rfl
  have he : listEligibleTransactions "t1" w1DB = [cexTxn] := rfl
  have hci : confirmedInvoiceIds "t1" w1DB = [] := rfl
  have hct : confirmedTransactionIds "t1" w1DB = [] := rfl
  have hex : existingPairs "t1" w1DB = ([] : List (String × String)) := rfl
  have hcl : clearProposed "t1" w1DB = w1DB := rfl
  simp only [reconcileRun, ho, he, hci, hct, hex, hcl, hbuild]
  simp [w1DB, w1DB1]

lemma w1_run2 : reconcileRun "t1" w1DB1 = (w1DB2, [w1CandB]) := by
  have hpcA : perInvoiceCandidates "t1" cexInvoice [cexTxn] [] [("I1", "T1")] =
      [] := by
    simp [perInvoiceCandidates, cexInvoice, cexTxn]
  have hpcB : perInvoiceCandidates "t1" w1Invoice2 [cexTxn] [] [("I1", "T1")] =
      [(9/10, w1CandB)] := by
    simp only [perInvoiceCandidates, List.filterMap_cons, List.filterMap_nil,
      List.not_mem_nil, if_false, w1_score2, SCORE_THRESHOLD, w1CandB]
    norm_num [w1Invoice2, cexTxn, candidateFor]
    simp
  have hpool : candidatePool "t1" [cexInvoice, w1Invoice2] [cexTxn] [] []
      [("I1", "T1")] = [(9/10, w1CandB)] := by
    simp [candidatePool, hpcA, hpcB, sortScoresDescending, insertDescending,
      CANDIDATES_PER_INVOICE]
  have hsel : selectCandidates [(9/10, w1CandB)] [] (fun _ => 0) = [w1CandB] := by
    norm_num [selectCandidates, CANDIDATES_PER_INVOICE, w1CandB, candidateFor]
  have hbuild : buildProposedEntities "t1" [cexInvoice, w1Invoice2] [cexTxn]
      [] [] [("I1", "T1")] = [w1CandB] := by
    simp [buildProposedEntities, hpool, sortScoresDescending, insertDescending,
      hsel]
  have ho : listOpenInvoices "t1" w1DB1 = [cexInvoice, w1Invoice2] := rfl
  have he : listEligibleTransactions "t1" w1DB1 = [cexTxn] := rfl
  have hci : confirmedInvoiceIds "t1" w1DB1 = [] := rfl
  have hct : confirmedTransactionIds "t1" w1DB1 = [] := rfl
  have hex : existingPairs "t1" w1DB1 = [("I1", "T1")] := rfl
  have hcl : clearProposed "t1" w1DB1 = w1DB := rfl
  simp only [reconcileRun, ho, he, hci, hct, hex, hcl, hbuild]
  simp [w1DB, w1DB2]

/-- C1, counterexample: over `w1DB` (two equally scoring open invoices
`I1`, `I2`, one transaction `T1`, no candidate rows) the first run ends
with the PROPOSED set `[(I1, T1, 0.9)]` while the second run, whose pair
history blocks `(I1, T1)`, ends with `[(I2, T1, 0.9)]` — the two runs'
proposal sets are not identical. -/
theorem reconcile_not_idempotent_cex :
    proposedTriples "t1" (reconcileRun "t1" w1DB).1 =
      [("I1", "T1", (9/10 : ℚ))] ∧
    proposedTriples "t1" (reconcileRun "t1" (reconcileRun "t1" w1DB).1).1 =
      [("I2", "T1", (9/10 : ℚ))] ∧
    proposedTriples "t1" (reconcileRun "t1" (reconcileRun "t1" w1DB).1).1 ≠
      proposedTriples "t1" (reconcileRun "t1" w1DB).1 := by
  have h1 : proposedTriples "t1" (reconcileRun "t1" w1DB).1 =
      [("I1", "T1", (9/10 : ℚ))] := by
    rw [w1_run1]
    rfl
  have h2 : proposedTriples "t1" (reconcileRun "t1" (reconcileRun "t1" w1DB).1).1 =
      [("I2", "T1", (9/10 : ℚ))] := by
    rw [w1_run1]
    show proposedTriples "t1" (reconcileRun "t1" w1DB1).1 = _
    rw [w1_run2]
    rfl
  refine ⟨h1, h2, ?_⟩
  rw [h1, h2]
  simp

/-- C1 (amended), witness: over `w1DB` the first run proposes
`(I1, T1, 0.9)`, the second run proposes `(I2, T1, 0.9)`, and the two
pairs differ. -/
theorem reconcile_rerun_proposes_disjoint_pairs_witness :
    ("I2", "T1", (9/10 : ℚ)) ∈
      proposedTriples "t1" (reconcileRun "t1" (reconcileRun "t1" w1DB).1).1 ∧
    ("I1", "T1", (9/10 : ℚ)) ∈ proposedTriples "t1" (reconcileRun "t1" w1DB).1 ∧
    ((("I2", "T1", (9/10 : ℚ)).1, ("I2", "T1", (9/10 : ℚ)).2.1) ≠
      (("I1", "T1", (9/10 : ℚ)).1, ("I1", "T1", (9/10 : ℚ)).2.1)) := by
  have h2 : ("I2", "T1", (9/10 : ℚ)) ∈
      proposedTriples "t1" (reconcileRun "t1" (reconcileRun "t1" w1DB).1).1 := by
    rw [w1_run1]
    show _ ∈ proposedTriples "t1" (reconcileRun "t1" w1DB1).1
    rw [w1_run2]
    exact List.mem_singleton.mpr rfl
  have h1 : ("I1", "T1", (9/10 : ℚ)) ∈
      proposedTriples "t1" (reconcileRun "t1" w1DB).1 := by
    rw [w1_run1]
    exact List.mem_singleton.mpr rfl
  exact ⟨h2, h1,
    reconcile_rerun_proposes_disjoint_pairs "t1" w1DB _ h2 _ h1⟩

/-- C2: after any `reconcile()` call, among the tenant's PROPOSED
candidates every bank transaction id appears in at most one candidate and
every invoice id appears in at most 3 candidates. -/
theorem reconcile_proposed_caps (t : String) (db : DB) (txnId invId : String) :
    ((reconcileRun t db).1.matchRows.countP fun c =>
      decide (c.tenantId = t ∧ c.status = MatchStatus.proposed ∧
        c.bankTransactionId = txnId)) ≤ 1 ∧
    ((reconcileRun t db).1.matchRows.countP fun c =>
      decide (c.tenantId = t ∧ c.status = MatchStatus.proposed ∧
        c.invoiceId = invId)) ≤ 3 := by
  have hcleared : ∀ p : MatchCandidate → Prop, ∀ hp : DecidablePred p,
      (∀ c, p c → c.tenantId = t ∧ c.status = MatchStatus.proposed) →
      ((clearProposed t db).matchRows.countP fun c => decide (p c)) = 0 := by
    intro p hp himp
    rw [List.countP_eq_zero]
    intro a ha
    have h2 := (List.mem_filter.mp ha).2
    simp only [decide_eq_true_eq] at h2 ⊢
    exact fun hpa => h2 (himp a hpa)
  constructor
  · rw [reconcileRun_matchRows, List.countP_append]
    rw [hcleared _ _ (fun c hc => ⟨hc.1, hc.2.1⟩)]
    have hmono : ((reconcileRun t db).2.countP fun c =>
        decide (c.tenantId = t ∧ c.status = MatchStatus.proposed ∧
          c.bankTransactionId = txnId)) ≤
        ((reconcileRun t db).2.countP fun c =>
          decide (c.bankTransactionId = txnId)) := by
      apply List.countP_mono_left
      intro c _ hc
      simp only [decide_eq_true_eq] at hc ⊢
      exact hc.2.2
    have := reconcileRun_snd_countP_txn t db txnId
    omega
  · rw [reconcileRun_matchRows, List.countP_append]
    rw [hcleared _ _ (fun c hc => ⟨hc.1, hc.2.1⟩)]
    have hmono : ((reconcileRun t db).2.countP fun c =>
        decide (c.tenantId = t ∧ c.status = MatchStatus.proposed ∧
          c.invoiceId = invId)) ≤
        ((reconcileRun t db).2.countP fun c =>
          decide (c.invoiceId = invId)) := by
      apply List.countP_mono_left
      intro c _ hc
      simp only [decide_eq_true_eq] at hc ⊢
      exact hc.2.2
    have := reconcileRun_snd_countP_inv t db invId
    omega

/-- C8: with no OPEN invoice or no eligible transaction, `reconcile()`
deletes exactly the tenant's PROPOSED candidates and returns an empty match
list; every other candidate row — in particular every CONFIRMED and every
REJECTED row — and all invoices and transactions are left unchanged. -/
theorem reconcile_empty_inputs_clears_proposed (t : String) (db : DB)
    (h : listOpenInvoices t db = [] ∨ listEligibleTransactions t db = []) :
    reconcileRun t db = (clearProposed t db, []) ∧
    (∀ c ∈ db.matchRows, ¬ (c.tenantId = t ∧ c.status = MatchStatus.proposed) →
      c ∈ (reconcileRun t db).1.matchRows) ∧
    (∀ c ∈ (reconcileRun t db).1.matchRows,
      c ∈ db.matchRows ∧ ¬ (c.tenantId = t ∧ c.status = MatchStatus.proposed)) ∧
    (reconcileRun t db).1.invoices = db.invoices ∧
    (reconcileRun t db).1.transactions = db.transactions := by
  have hrun : reconcileRun t db = (clearProposed t db, []) := by
    simp only [reconcileRun]
    rw [if_pos h]
  refine ⟨hrun, ?_, ?_, reconcileRun_invoices t db, reconcileRun_transactions t db⟩
  · intro c hc hnp
    rw [hrun]
    refine List.mem_filter.mpr ⟨hc, ?_⟩
    simp only [decide_eq_true_eq]
    exact hnp
  · intro c hc
    rw [hrun] at hc
    have hmem := List.mem_filter.mp hc
    refine ⟨hmem.1, ?_⟩
    have h2 := hmem.2
    simp only [decide_eq_true_eq] at h2
    exact h2

theorem reconcile_empty_inputs_clears_proposed_witness :
    reconcileRun "t1" w8DB = (clearProposed "t1" w8DB, []) ∧
    (∀ c ∈ w8DB.matchRows, ¬ (c.tenantId = "t1" ∧ c.status = MatchStatus.proposed) →
      c ∈ (reconcileRun "t1" w8DB).1.matchRows) ∧
    (∀ c ∈ (reconcileRun "t1" w8DB).1.matchRows,
      c ∈ w8DB.matchRows ∧ ¬ (c.tenantId = "t1" ∧ c.status = MatchStatus.proposed)) ∧
    (reconcileRun "t1" w8DB).1.invoices = w8DB.invoices ∧
    (reconcileRun "t1" w8DB).1.transactions = w8DB.transactions :=
  reconcile_empty_inputs_clears_proposed "t1" w8DB (Or.inl (by decide))

/-- C4: `confirm_match` raises NotFound when no candidate with the id
exists for the tenant — also when a candidate with that id belongs to a
different tenant — and Conflict when the candidate is not PROPOSED; in
both failure cases the database is exactly as before the call. -/
theorem confirm_match_failure_frame (t matchId : String) (db : DB) :
    ((∀ c ∈ db.matchRows, ¬ (c.id = matchId ∧ c.tenantId = t)) →
      confirmMatch t matchId db = (Except.error ServiceError.notFound, db)) ∧
    (∀ c, getForTenant t matchId db = some c → c.status ≠ MatchStatus.proposed →
      confirmMatch t matchId db = (Except.error ServiceError.conflict, db)) := by
  constructor
  · intro h
    have hnone : getForTenant t matchId db = none := by
      unfold getForTenant
      rw [List.find?_eq_none]
      intro a ha
      simpa using h a ha
    unfold confirmMatch
    rw [hnone]
  · intro c hc hs
    unfold confirmMatch
    rw [hc]
    simp [hs]

/-- C10: the scoring engine treats empty-string text exactly like absent
text: with an empty invoice description (and a non-empty memo, or vice
versa) the description component falls back to the 0.3 partial credit
instead of a similarity ratio, and with an empty vendor name the
vendor_boost component achieves 0. -/
theorem empty_text_like_absent (d m : Option String) :
    descriptionComponent (some "") m = descriptionComponent none m ∧
    descriptionComponent d (some "") = descriptionComponent d none ∧
    vendorComponent (some "") m = vendorComponent none m ∧
    (pyTruthy m = true → (descriptionComponent (some "") m).achieved = 3/10) ∧
    (pyTruthy d = true → (descriptionComponent d (some "")).achieved = 3/10) ∧
    (vendorComponent (some "") m).achieved = 0 := by
  have hempty : pyTruthy (some "") = false := rfl
  have hnone : pyTruthy none = false := rfl
  refine ⟨?_, ?_, ?_, ?_, ?_, ?_⟩
  · simp [descriptionComponent, hempty, hnone]
  · simp [descriptionComponent, hempty, hnone]
  · simp [vendorComponent, hempty, hnone]
  · intro hm
    simp [descriptionComponent, hempty, hm]
  · intro hd
    simp [descriptionComponent, hempty, hd]
  · simp [vendorComponent, hempty]

/-- C5: the code's amount comparison is not exact-decimal.  At invoice
amount $0.04 and transaction amount $0.03 the exact decimal difference is
exactly $0.01, so the spec's exact comparison awards `amount_exact`
achieved 1.0 (as the embedded exact-arithmetic component does); but the
code compares `abs(float(0.04) - float(0.03))`, whose binary64 value
exceeds the binary64 value of the literal `0.01`, so the running code
awards 0.0, and the computed difference itself is not the exact 1/100. -/
theorem amount_comparison_uses_binary_floats :
    pyExactAmountAchieved 4 3 = 0 ∧
    specExactAmountAchieved 4 3 = 1 ∧
    dyadicToQ (pyAmountDiffFloat 4 3) ≠ 1/100 ∧
    (exactAmountComponent (|(4 : ℚ) - 3| / 100)).achieved = 1 := by
  refine ⟨by decide, by decide, ?_, ?_⟩
  · have h : pyAmountDiffFloat 4 3 = (5764607523034236, -59) := by decide
    rw [h]
    norm_num [dyadicToQ]
  · norm_num [exactAmountComponent]

/-- Under the exact-decimal amount semantics the spec mandates, a pair
whose amounts differ by at most one cent, whose transaction posts within
3 days of the invoice date, whose description and memo are present and
identical up to letter case, and whose vendor name is present and a
case-insensitive substring of the memo, scores a clamped total of exactly
1.0 with confidence "high".  This is the intended behaviour the source
misses at threshold-boundary amounts (see the C7 theorem below). -/
theorem perfect_pair_scores_one (inv : Invoice) (txn : BankTransaction)
    (d m v : String) (dt : Int)
    (hd : inv.description = some d) (hd0 : d ≠ "")
    (hm : txn.description = some m) (hm0 : m ≠ "")
    (hv : inv.vendorName = some v) (hv0 : v ≠ "")
    (hcase : pyLower d = pyLower m)
    (hsub : pySubstring (pyLower v) (pyLower m) = true)
    (hamt : |inv.amountCents - txn.amountCents| ≤ 1)
    (hdt : inv.invoiceDate = some dt)
    (hdays : (txn.postedDate - dt).natAbs ≤ 3) :
    (scoreMatch inv txn).total = 1 ∧
    (scoreMatch inv txn).confidenceLabel = "high" := by
  have hdiffle : |(inv.amountCents : ℚ) - (txn.amountCents : ℚ)| / 100 ≤ 1/100 := by
    have h1 : ((|inv.amountCents - txn.amountCents| : ℤ) : ℚ) ≤ (1 : ℚ) := by
      exact_mod_cast hamt
    rw [Int.cast_abs, Int.cast_sub] at h1
    linarith
  have hdiffnn : 0 ≤ |(inv.amountCents : ℚ) - (txn.amountCents : ℚ)| / 100 := by
    positivity
  have htotal : (scoreMatch inv txn).total = 1 := by
    simp only [scoreMatch]
    set diff : ℚ := |(inv.amountCents : ℚ) - (txn.amountCents : ℚ)| / 100 with hdiff
    have hexact : (exactAmountComponent diff).contribution = 1/2 := by
      simp only [exactAmountComponent, ScoreComponent.contribution]
      rw [if_pos hdiffle]
      norm_num
    have htol : (toleranceComponent diff).contribution = 1/5 * (1 - diff) := by
      have hle1 : diff ≤ 1 := le_trans hdiffle (by norm_num)
      have h1d : (0 : ℚ) ≤ 1 - diff := by linarith
      have h1d' : (1 : ℚ) - diff ≤ 1 := by linarith
      simp only [toleranceComponent, if_pos hle1, ScoreComponent.contribution]
      rw [max_eq_right h1d, min_eq_left h1d', max_eq_right h1d]
    have hdate : (dateComponent inv.invoiceDate txn.postedDate).contribution = 1/5 := by
      rw [hdt]
      simp [dateComponent, hdays, ScoreComponent.contribution]
    have hdesc :
        (descriptionComponent inv.description txn.description).contribution = 1/10 := by
      rw [hd, hm]
      have htd : pyTruthy (some d) = true := by simpa [pyTruthy] using hd0
      have htm : pyTruthy (some m) = true := by simpa [pyTruthy] using hm0
      simp [descriptionComponent, htd, htm, hcase, similarityRatio_self,
        ScoreComponent.contribution]
    have hvend :
        (vendorComponent inv.vendorName txn.description).contribution = 1/20 := by
      rw [hv, hm]
      have htv : pyTruthy (some v) = true := by simpa [pyTruthy] using hv0
      have htm : pyTruthy (some m) = true := by simpa [pyTruthy] using hm0
      simp [vendorComponent, htv, htm, hsub, ScoreComponent.contribution]
    simp only [List.map_cons, List.map_nil, List.sum_cons, List.sum_nil,
      hexact, htol, hdate, hdesc, hvend]
    have hsum : (1/2 : ℚ) + (1/5 * (1 - diff) + (1/5 + (1/10 + (1/20 + 0)))) =
        21/20 - 1/5 * diff := by ring
    rw [hsum]
    have hge1 : (1 : ℚ) ≤ 21/20 - 1/5 * diff := by
      rw [hdiff] at hdiffle hdiffnn ⊢
      linarith
    rw [min_eq_right hge1]
    norm_num [round4, roundHalfEven]
  refine ⟨htotal, ?_⟩
  simp only [MatchScore.confidenceLabel, htotal]
  norm_num

/-- C7, evaluated at the failing input: at the perfectly aligned pair
`w7cInvoice`/`w7cTxn` — amounts $0.04 and $0.03 (decimal difference
exactly $0.01), same-day posting, description equal to the memo up to
case, vendor named inside the memo — the running code's amount test
`abs(float(0.04) - float(0.03)) <= 0.01` is false (the binary64
difference exceeds the binary64 literal), so the code awards
`amount_exact` 0.0 and a total of 0.548 with label "low"; the claim's
required outcome, total exactly 1.0 with label "high", is what the
exact-decimal semantics produces on the same pair. -/
theorem perfect_pair_float_divergence :
    dyadicLe (pyAmountDiffFloat w7cInvoice.amountCents w7cTxn.amountCents)
      (floatPairOfFrac 1 100) = false ∧
    pyExactAmountAchieved w7cInvoice.amountCents w7cTxn.amountCents = 0 ∧
    (w7cInvoice.amountCents - w7cTxn.amountCents).natAbs ≤ 1 ∧
    (scoreMatch w7cInvoice w7cTxn).total = 1 ∧
    (scoreMatch w7cInvoice w7cTxn).confidenceLabel = "high" :=
  ⟨by decide, by decide, by decide,
    perfect_pair_scores_one w7cInvoice w7cTxn
      "Consulting Acme" "consulting acme" "Acme" 0
      rfl (by decide) rfl (by decide) rfl (by decide) (by decide) (by decide)
      (by decide) rfl (by decide)⟩

/-! ### Helper lemmas: confirmation -/

lemma invoice_status_after_set_matched (invs : List Invoice) (invId : String)
    (h : ∃ inv ∈ invs, inv.id = invId) :
    (((invs.map fun i =>
        if i.id = invId then { i with status := InvoiceStatus.matched } else i).find?
          fun i => decide (i.id = invId)).map (·.status)) =
      some InvoiceStatus.matched := by
  induction invs with
  | nil => simp at h
  | cons i is ih =>
    by_cases hid : i.id = invId
    · simp [List.find?, hid]
    · have h' : ∃ inv ∈ is, inv.id = invId := by
        obtain ⟨inv, hmem, heq⟩ := h
        rcases List.mem_cons.mp hmem with rfl | hmem'
        · exact absurd heq hid
        · exact ⟨inv, hmem', heq⟩
      simpa [List.find?, hid] using ih h'

lemma find?_map_of_preserved (rows : List MatchCandidate)
    (f : MatchCandidate → MatchCandidate) (p : MatchCandidate → Bool)
    (hf : ∀ x, p (f x) = p x) :
    (rows.map f).find? p = (rows.find? p).map f := by
  have hpf : p ∘ f = p := funext hf
  rw [List.find?_map, hpf]

/-- C3: confirming a PROPOSED candidate sets it CONFIRMED, sets its
invoice MATCHED, sets the tenant's other PROPOSED candidates of the same
invoice REJECTED while keeping every row in storage, and returns the
confirmed candidate together with the invoice's new status; a second call
on the same id then raises Conflict and changes nothing. -/
theorem confirm_match_success (t matchId : String) (db : DB) (c : MatchCandidate)
    (hfind : getForTenant t matchId db = some c)
    (hstat : c.status = MatchStatus.proposed)
    (hinv : ∃ inv ∈ db.invoices, inv.id = c.invoiceId) :
    confirmMatch t matchId db =
      (Except.ok ({ c with status := MatchStatus.confirmed },
          some InvoiceStatus.matched),
        { db with
          invoices := db.invoices.map fun i =>
            if i.id = c.invoiceId then { i with status := InvoiceStatus.matched }
            else i,
          matchRows := db.matchRows.map fun x =>
            if x.id = matchId ∧ x.tenantId = t then
              { x with status := MatchStatus.confirmed }
            else if x.tenantId = t ∧ x.invoiceId = c.invoiceId ∧ x.id ≠ matchId ∧
                x.status = MatchStatus.proposed then
              { x with status := MatchStatus.rejected }
            else x }) ∧
    confirmMatch t matchId (confirmMatch t matchId db).2 =
      (Except.error ServiceError.conflict, (confirmMatch t matchId db).2) := by
  have hpred := List.find?_some hfind
  simp only [decide_eq_true_eq] at hpred
  obtain ⟨hcid, hct⟩ := hpred
  -- the composed row update is the stated one
  have hmapeq : ∀ rows : List MatchCandidate,
      ((rows.map fun x =>
          if x.id = matchId ∧ x.tenantId = t then
            { x with status := MatchStatus.confirmed }
          else x).map fun x =>
          if x.tenantId = t ∧ x.invoiceId = c.invoiceId ∧ x.id ≠ c.id ∧
              x.status = MatchStatus.proposed then
            { x with status := MatchStatus.rejected }
          else x) =
        rows.map fun x =>
          if x.id = matchId ∧ x.tenantId = t then
            { x with status := MatchStatus.confirmed }
          else if x.tenantId = t ∧ x.invoiceId = c.invoiceId ∧ x.id ≠ matchId ∧
              x.status = MatchStatus.proposed then
            { x with status := MatchStatus.rejected }
          else x := by
    intro rows
    rw [List.map_map]
    apply List.map_congr_left
    intro x _
    by_cases hA : x.id = matchId ∧ x.tenantId = t
    · simp only [Function.comp_apply, if_pos hA]
      rw [if_neg (by simp)]
    · simp only [Function.comp_apply, if_neg hA, hcid]
  have hmain : confirmMatch t matchId db =
      (Except.ok ({ c with status := MatchStatus.confirmed },
          some InvoiceStatus.matched),
        { db with
          invoices := db.invoices.map fun i =>
            if i.id = c.invoiceId then { i with status := InvoiceStatus.matched }
            else i,
          matchRows := db.matchRows.map fun x =>
            if x.id = matchId ∧ x.tenantId = t then
              { x with status := MatchStatus.confirmed }
            else if x.tenantId = t ∧ x.invoiceId = c.invoiceId ∧ x.id ≠ matchId ∧
                x.status = MatchStatus.proposed then
              { x with status := MatchStatus.rejected }
            else x }) := by
    unfold confirmMatch
    rw [hfind]
    dsimp only
    rw [if_neg (by simp [hstat])]
    simp only [rejectOtherMatches]
    rw [hmapeq db.matchRows]
    rw [invoice_status_after_set_matched db.invoices c.invoiceId hinv]
  refine ⟨hmain, ?_⟩
  rw [hmain]
  have hfind2 : getForTenant t matchId
      { db with
        invoices := db.invoices.map fun i =>
          if i.id = c.invoiceId then { i with status := InvoiceStatus.matched }
          else i,
        matchRows := db.matchRows.map fun x =>
          if x.id = matchId ∧ x.tenantId = t then
            { x with status := MatchStatus.confirmed }
          else if x.tenantId = t ∧ x.invoiceId = c.invoiceId ∧ x.id ≠ matchId ∧
              x.status = MatchStatus.proposed then
            { x with status := MatchStatus.rejected }
          else x } = some { c with status := MatchStatus.confirmed } := by
    unfold getForTenant
    rw [find?_map_of_preserved _ _ _ ?hpres]
    case hpres =>
      intro x
      by_cases hA : x.id = matchId ∧ x.tenantId = t
      · rw [if_pos hA]
      · rw [if_neg hA]
        split
        · rfl
        · rfl
    have hfind' : db.matchRows.find?
        (fun x => decide (x.id = matchId ∧ x.tenantId = t)) = some c := hfind
    rw [hfind']
    rw [Option.map_some']
    rw [if_pos ⟨hcid, hct⟩]
  unfold confirmMatch
  rw [hfind2]
  dsimp only
  rw [if_pos (by simp)]

/-- C3, witness: over `w3DB` (open invoice `I1`, PROPOSED candidates `M1`
and `M2`), confirming `M1` confirms it, matches the invoice, rejects `M2`,
and a repeated confirmation raises Conflict. -/
theorem confirm_match_success_witness :
    confirmMatch "t1" "M1" w3DB =
      (Except.ok ({ w3Win with status := MatchStatus.confirmed },
          some InvoiceStatus.matched),
        { w3DB with
          invoices := w3DB.invoices.map fun i =>
            if i.id = w3Win.invoiceId then { i with status := InvoiceStatus.matched }
            else i,
          matchRows := w3DB.matchRows.map fun x =>
            if x.id = "M1" ∧ x.tenantId = "t1" then
              { x with status := MatchStatus.confirmed }
            else if x.tenantId = "t1" ∧ x.invoiceId = w3Win.invoiceId ∧
                x.id ≠ "M1" ∧ x.status = MatchStatus.proposed then
              { x with status := MatchStatus.rejected }
            else x }) ∧
    confirmMatch "t1" "M1" (confirmMatch "t1" "M1" w3DB).2 =
      (Except.error ServiceError.conflict, (confirmMatch "t1" "M1" w3DB).2) :=
  confirm_match_success "t1" "M1" w3DB w3Win rfl rfl
    ⟨cexInvoice, List.mem_cons_self _ _, rfl⟩

/-! ### Helper lemmas: invoice lifecycle across engine operations -/

lemma confirmMatch_db_cases (t matchId : String) (db : DB) :
    (confirmMatch t matchId db).2 = db ∨
    ∃ c, getForTenant t matchId db = some c ∧ c.status = MatchStatus.proposed ∧
      (confirmMatch t matchId db).2 =
        { db with
          invoices := db.invoices.map fun i =>
            if i.id = c.invoiceId then { i with status := InvoiceStatus.matched }
            else i,
          matchRows := ((db.matchRows.map fun x =>
            if x.id = matchId ∧ x.tenantId = t then
              { x with status := MatchStatus.confirmed }
            else x).map fun x =>
            if x.tenantId = t ∧ x.invoiceId = c.invoiceId ∧ x.id ≠ c.id ∧
                x.status = MatchStatus.proposed then
              { x with status := MatchStatus.rejected }
            else x) } := by
  unfold confirmMatch
  cases hf : getForTenant t matchId db with
  | none => exact Or.inl rfl
  | some m =>
    dsimp only
    by_cases hs : m.status = MatchStatus.proposed
    · right
      refine ⟨m, rfl, hs, ?_⟩
      rw [if_neg (by simp [hs])]
      rfl
    · left
      rw [if_pos hs]

lemma invoiceEvolves_refl_of_eq {dbA dbB : DB} (h : dbB.invoices = dbA.invoices) :
    InvoiceEvolves dbA dbB := by
  intro inv' hmem
  rw [h] at hmem
  exact ⟨inv', hmem, rfl, Or.inl rfl⟩

lemma invoiceEvolves_trans {dbA dbB dbC : DB}
    (h1 : InvoiceEvolves dbA dbB) (h2 : InvoiceEvolves dbB dbC) :
    InvoiceEvolves dbA dbC := by
  intro inv'' hc
  obtain ⟨inv', hb, hid', hcase'⟩ := h2 inv'' hc
  obtain ⟨inv, ha, hid, hcase⟩ := h1 inv' hb
  refine ⟨inv, ha, hid.trans hid', ?_⟩
  rcases hcase' with rfl | ⟨hopen', rfl⟩
  · exact hcase
  · rcases hcase with rfl | ⟨hopen, rfl⟩
    · exact Or.inr ⟨hopen', rfl⟩
    · exact absurd hopen' (by simp)

lemma invoiceEvolves_confirm (t matchId : String) (db : DB) (h : GoodDB db) :
    InvoiceEvolves db (confirmMatch t matchId db).2 := by
  rcases confirmMatch_db_cases t matchId db with heq | ⟨c, hfind, hs, heq⟩
  · rw [heq]
    exact invoiceEvolves_refl_of_eq rfl
  · rw [heq]
    intro inv' hmem
    simp only [List.mem_map] at hmem
    obtain ⟨inv, hinv, rfl⟩ := hmem
    by_cases hid : inv.id = c.invoiceId
    · have hcmem : c ∈ db.matchRows := List.mem_of_find?_eq_some hfind
      obtain ⟨invm, hm, hmid, hmt, hmopen⟩ := h.2 c hcmem hs
      have heqm : inv = invm :=
        List.inj_on_of_nodup_map h.1 hinv hm (by rw [hid, hmid])
      rw [if_pos hid]
      exact ⟨inv, hinv, rfl, Or.inr ⟨heqm ▸ hmopen, rfl⟩⟩
    · rw [if_neg hid]
      exact ⟨inv, hinv, rfl, Or.inl rfl⟩

lemma goodDB_reconcile (t : String) (db : DB) (h : GoodDB db) :
    GoodDB (reconcileRun t db).1 := by
  constructor
  · rw [reconcileRun_invoices]
    exact h.1
  · intro c hc hs
    rw [reconcileRun_invoices]
    rw [reconcileRun_matchRows] at hc
    rcases List.mem_append.mp hc with hmem | hmem
    · exact h.2 c (List.mem_filter.mp hmem).1 hs
    · have hspec := reconcileRun_snd_spec hmem
      obtain ⟨inv, hinv, hid⟩ := hspec.2.2.2
      have hfil := List.mem_filter.mp hinv
      have hprops := hfil.2
      simp only [decide_eq_true_eq] at hprops
      exact ⟨inv, hfil.1, hid.symm, hprops.1.trans hspec.1.symm, hprops.2⟩

lemma goodDB_confirm (t matchId : String) (db : DB) (h : GoodDB db) :
    GoodDB (confirmMatch t matchId db).2 := by
  rcases confirmMatch_db_cases t matchId db with heq | ⟨c, hfind, hs, heq⟩
  · rw [heq]
    exact h
  · rw [heq]
    have hpred := List.find?_some hfind
    simp only [decide_eq_true_eq] at hpred
    obtain ⟨hcid, hct⟩ := hpred
    have hcmem : c ∈ db.matchRows := List.mem_of_find?_eq_some hfind
    obtain ⟨invc, hinvc, hinvcid, hinvct, hinvcopen⟩ := h.2 c hcmem hs
    constructor
    · show (((db.invoices.map fun i =>
        if i.id = c.invoiceId then { i with status := InvoiceStatus.matched }
        else i).map (·.id))).Nodup
      have hids : ((db.invoices.map fun i =>
          if i.id = c.invoiceId then { i with status := InvoiceStatus.matched }
          else i).map (·.id)) = db.invoices.map (·.id) := by
        rw [List.map_map]
        apply List.map_congr_left
        intro i _
        by_cases hid : i.id = c.invoiceId
        · simp [Function.comp, hid]
        · simp [Function.comp, hid]
      rw [hids]
      exact h.1
    · intro c' hc' hs'
      simp only [List.mem_map] at hc'
      obtain ⟨x, hx, rfl⟩ := hc'
      obtain ⟨x0, hx0, rfl⟩ := hx
      by_cases hA : x0.id = matchId ∧ x0.tenantId = t
      · rw [if_pos hA] at hs' ⊢
        rw [if_neg (by simp)] at hs' ⊢
        simp at hs'
      · rw [if_neg hA] at hs' ⊢
        by_cases hB : x0.tenantId = t ∧ x0.invoiceId = c.invoiceId ∧ x0.id ≠ c.id ∧
            x0.status = MatchStatus.proposed
        · rw [if_pos hB] at hs'
          simp at hs'
        · rw [if_neg hB] at hs' ⊢
          obtain ⟨inv, hinv, hid, hit, hopen⟩ := h.2 x0 hx0 hs'
          by_cases hxinv : inv.id = c.invoiceId
          · exfalso
            have hxinvid : x0.invoiceId = c.invoiceId := hid ▸ hxinv
            have hxt : x0.tenantId ≠ t := by
              intro hxt
              apply hB
              refine ⟨hxt, hxinvid, ?_, hs'⟩
              intro hxid
              exact hA ⟨hxid.trans hcid, hxt⟩
            have hinveq : inv = invc :=
              List.inj_on_of_nodup_map h.1 hinv hinvc (by rw [hxinv, hinvcid])
            apply hxt
            rw [← hit, hinveq, hinvct, hct]
          · refine ⟨inv, ?_, hid, hit, hopen⟩
            exact List.mem_map.mpr ⟨inv, hinv, if_neg hxinv⟩

lemma goodDB_applyOp (db : DB) (op : EngineOp) (h : GoodDB db) :
    GoodDB (applyOp db op) := by
  cases op with
  | reconcileOp t => exact goodDB_reconcile t db h
  | confirmOp t matchId => exact goodDB_confirm t matchId db h
  | listOp t s => exact h

lemma invoiceEvolves_applyOp (db : DB) (op : EngineOp) (h : GoodDB db) :
    InvoiceEvolves db (applyOp db op) := by
  cases op with
  | reconcileOp t => exact invoiceEvolves_refl_of_eq (reconcileRun_invoices t db)
  | confirmOp t matchId => exact invoiceEvolves_confirm t matchId db h
  | listOp t s => exact invoiceEvolves_refl_of_eq rfl

lemma invoiceEvolves_applyOps (ops : List EngineOp) :
    ∀ db : DB, GoodDB db → InvoiceEvolves db (applyOps db ops) := by
  induction ops with
  | nil => exact fun db _ => invoiceEvolves_refl_of_eq rfl
  | cons op rest ih =>
    intro db h
    exact invoiceEvolves_trans (invoiceEvolves_applyOp db op h)
      (ih (applyOp db op) (goodDB_applyOp db op h))

lemma applyOps_invoices_nonconfirm (ops : List EngineOp) :
    ∀ db : DB, (∀ op ∈ ops, ∀ s matchId, op ≠ EngineOp.confirmOp s matchId) →
      (applyOps db ops).invoices = db.invoices := by
  induction ops with
  | nil => exact fun db _ => rfl
  | cons op rest ih =>
    intro db hops
    have h1 : (applyOp db op).invoices = db.invoices := by
      cases op with
      | reconcileOp t => exact reconcileRun_invoices t db
      | confirmOp s matchId =>
        exact absurd rfl (hops _ (List.mem_cons_self _ _) s matchId)
      | listOp t s => rfl
    have h2 := ih (applyOp db op) fun o ho => hops o (List.mem_cons_of_mem _ ho)
    calc (applyOps db (op :: rest)).invoices
        = (applyOps (applyOp db op) rest).invoices := rfl
      _ = (applyOp db op).invoices := h2
      _ = db.invoices := h1

/-- C6: from any well-formed state (`GoodDB`), over every sequence of
engine operations no invoice's status ever changes except an OPEN invoice
becoming MATCHED, no sequence without a `confirm_match` changes any
invoice, the scoring/proposal phase of `reconcile()` modifies no invoice
at all, and candidate generation only even loads OPEN invoices. -/
theorem engine_invoice_transitions (db : DB) (h : GoodDB db) :
    (∀ ops : List EngineOp, InvoiceEvolves db (applyOps db ops)) ∧
    (∀ ops : List EngineOp,
      (∀ op ∈ ops, ∀ s matchId, op ≠ EngineOp.confirmOp s matchId) →
      (applyOps db ops).invoices = db.invoices) ∧
    (∀ t, (reconcileRun t db).1.invoices = db.invoices) ∧
    (∀ t, ∀ inv ∈ listOpenInvoices t db, inv.status = InvoiceStatus.«open») := by
  refine ⟨fun ops => invoiceEvolves_applyOps ops db h,
    fun ops hops => applyOps_invoices_nonconfirm ops db hops,
    fun t => reconcileRun_invoices t db, ?_⟩
  intro t inv hinv
  have hfil := (List.mem_filter.mp hinv).2
  simp only [decide_eq_true_eq] at hfil
  exact hfil.2

/-- C6, witness: the concrete well-formed state `cexDB` satisfies the
invariant hypothesis, so all four conclusions hold over it. -/
theorem engine_invoice_transitions_witness :
    (∀ ops : List EngineOp, InvoiceEvolves cexDB (applyOps cexDB ops)) ∧
    (∀ ops : List EngineOp,
      (∀ op ∈ ops, ∀ s matchId, op ≠ EngineOp.confirmOp s matchId) →
      (applyOps cexDB ops).invoices = cexDB.invoices) ∧
    (∀ t, (reconcileRun t cexDB).1.invoices = cexDB.invoices) ∧
    (∀ t, ∀ inv ∈ listOpenInvoices t cexDB,
      inv.status = InvoiceStatus.«open») :=
  engine_invoice_transitions cexDB (by constructor <;> decide)

end FlowRMS
